import Mathlib

/-!
Verification of the caption acquisition and timing-reconstruction pipeline
of the karaoke repository.

Shallow embedding conventions:
* Python `str` / `bytes` values are modelled as `List Char`.
* Python unbounded `int` is modelled as `Int`; indices and widths as `Nat`.
* Python floats produced by `x / 1000.0` carry exact values `x / 1000`
  here as `Rat`; the claims settled below only concern the order and
  construction of these values, on which IEEE rounding is monotone and
  irrelevant.
* `list.sort` / `sorted` (stable) is modelled by `List.mergeSort`, which
  is stable with the same tie-breaking behaviour.
* Writing lines to a file is modelled by returning the written character
  sequence (or the written entry sequence, where only entries matter).
-/

/-- Python `str.strip()` on the characters Lean classifies as whitespace
(space, tab, CR, LF — the ones that occur in caption payloads). -/
def pyStrip (s : List Char) : List Char :=
  ((s.dropWhile Char.isWhitespace).reverse.dropWhile Char.isWhitespace).reverse

/-- Python `(x or "")` for an optional string field: `None` becomes `""`. -/
def orEmpty (o : Option (List Char)) : List Char := o.getD []

/-- Python `a or b` for optional strings, where `None` and `""` are falsy. -/
def pyOr (a : Option (List Char)) (b : List Char) : List Char :=
  match a with
  | none => b
  | some s => if s = [] then b else s

/-! ## convert_srv3_to_word_srt.py -/

/-- Decimal digits of `n`, as rendered by Python `f"{n}"` for `n ≥ 0`. -/
def natDigits (n : Nat) : List Char := Nat.toDigits 10 n

/-- Python format `f"{n:0wd}"` for a nonnegative value: decimal digits,
left-padded with `'0'` to width `w`. -/
def padNat (w : Nat) (n : Nat) : List Char :=
  List.replicate (w - (natDigits n).length) '0' ++ natDigits n

/-- Python format `f"{n:0wd}"` on an `int`: a sign for negative values
(counted in the width), otherwise `padNat`. -/
def intFmt (w : Nat) (n : Int) : List Char :=
  if n < 0 then '-' :: padNat (w - 1) n.natAbs else padNat w n.toNat

/-- `ms_to_srt_timestamp` from convert_srv3_to_word_srt.py.
Python `//` and `%` are floor division and nonnegative remainder for the
positive divisors used here, which is what `/` and `%` on `Int` mean. -/
def ms_to_srt_timestamp (ms : Int) : List Char :=
  let total_seconds := ms / 1000
  let milliseconds := ms % 1000
  let hours := total_seconds / 3600
  let minutes := (total_seconds % 3600) / 60
  let seconds := total_seconds % 60
  intFmt 2 hours ++ [':'] ++ intFmt 2 minutes ++ [':'] ++ intFmt 2 seconds
    ++ [','] ++ intFmt 3 milliseconds

/-- A word/subtitle cue `(start_ms, end_ms, text)`. -/
abbrev Cue := Int × Int × List Char

/-- One iteration of the loop in `write_srt`: the characters written for the
cue at (1-based) position `idx`, which is nothing when `end_ms <= start_ms`. -/
def srtBlock (idx : Nat) (c : Cue) : List Char :=
  if c.2.1 ≤ c.1 then []
  else
    natDigits idx ++ ['\n']
      ++ ms_to_srt_timestamp c.1 ++ (" --> ").toList ++ ms_to_srt_timestamp c.2.1
      ++ ['\n', '\n']
      ++ c.2.2 ++ ['\n', '\n']

/-- `write_srt` from convert_srv3_to_word_srt.py: the full character stream
written to the output file (`enumerate(cues, start=1)` numbers every cue,
dropped or not). -/
def write_srt (cues : List Cue) : List Char :=
  ((List.enumFrom 1 cues).map fun ic => srtBlock ic.1 ic.2).flatten

/-- An `<s>` element of an srv3 paragraph: optional `t` offset attribute and
optional text. -/
structure SSeg where
  t : Option Int
  text : Option (List Char)
deriving DecidableEq

/-- A `<p>` element of an srv3 document: optional `t`/`d` attributes, optional
own text, and the list of `<s>` children in document order. -/
structure Paragraph where
  t : Option Int
  d : Option Int
  text : Option (List Char)
  segs : List SSeg
deriving DecidableEq

/-- The `[เพลง]` music marker special-cased by the word-cue builder. -/
def plaengMarker : List Char := ['[', 'เ', 'พ', 'ล', 'ง', ']']

/-- The `(offset, text)` collection loop of `parse_srv3_to_word_cues`:
segments whose stripped text is empty are dropped; a missing `t` attribute
means offset `0`. -/
def segPairs (segs : List SSeg) : List (Int × List Char) :=
  segs.filterMap fun s =>
    let word_text := pyStrip (orEmpty s.text)
    if word_text = [] then none
    else some (s.t.getD 0, word_text)

/-- The `[เพลง]` widening applied to a computed word end. -/
def widen (txt : List Char) (st en : Int) : Int :=
  if txt = plaengMarker then max en (st + 500) else en

/-- The per-word cue construction loop of `parse_srv3_to_word_cues` over the
collected `(offset, text)` pairs: a word ends at the next word's start, the
final word at paragraph start + duration when known, else at its own start
+ 250. -/
def buildCues (para_start : Int) (para_dur : Option Int) :
    List (Int × List Char) → List Cue
  | [] => []
  | [(off, txt)] =>
    let st := para_start + off
    let en := match para_dur with
      | some dd => para_start + dd
      | none => st + 250
    [(st, widen txt st en, txt)]
  | (off1, txt1) :: (off2, txt2) :: rest =>
    let st := para_start + off1
    (st, widen txt1 st (para_start + off2), txt1)
      :: buildCues para_start para_dur ((off2, txt2) :: rest)

/-- The body of the paragraph loop of `parse_srv3_to_word_cues`: the cues
contributed by one `<p>` element. -/
def wordCuesOfParagraph (p : Paragraph) : List Cue :=
  match p.t with
  | none => []
  | some para_start =>
    if p.segs = [] then
      let text := pyStrip (orEmpty p.text)
      if text = [] then []
      else
        match p.d with
        | none => []
        | some para_dur => [(para_start, para_start + para_dur, text)]
    else
      let pairs := segPairs p.segs
      if pairs = [] then []
      else buildCues para_start p.d pairs

/-- The final `cues.sort(key=lambda c: (c[0], c[1]))` comparison. -/
def cueLe (a b : Cue) : Bool :=
  decide (a.1 < b.1) || (decide (a.1 = b.1) && decide (a.2.1 ≤ b.2.1))

/-- `parse_srv3_to_word_cues` from convert_srv3_to_word_srt.py, on the parsed
paragraph list of the document. -/
def parse_srv3_to_word_cues (paragraphs : List Paragraph) : List Cue :=
  ((paragraphs.map wordCuesOfParagraph).flatten).mergeSort cueLe

lemma intFmt_natCast (w : Nat) (k : Nat) : intFmt w (k : Int) = padNat w k := by
  simp [intFmt]

/-- C10: for every nonnegative integer input, `ms_to_srt_timestamp` renders
four zero-padded fields (widths 2,2,2,3) with minutes, seconds < 60 and
milliseconds < 1000, whose weighted sum reconstructs the input exactly. -/
theorem ms_to_srt_timestamp_exact (ms : Nat) :
    ∃ h m s x : Nat,
      ms_to_srt_timestamp (ms : Int) =
        padNat 2 h ++ [':'] ++ padNat 2 m ++ [':'] ++ padNat 2 s
          ++ [','] ++ padNat 3 x
      ∧ m < 60 ∧ s < 60 ∧ x < 1000
      ∧ h * 3600000 + m * 60000 + s * 1000 + x = ms := by
  refine ⟨ms / 1000 / 3600, ms / 1000 % 3600 / 60, ms / 1000 % 60, ms % 1000,
    ?_, by omega, by omega, by omega, by omega⟩
  have e1 : (ms : Int) / 1000 / 3600 = ((ms / 1000 / 3600 : Nat) : Int) := by
    omega
  have e2 : ((ms : Int) / 1000 % 3600) / 60
      = ((ms / 1000 % 3600 / 60 : Nat) : Int) := by omega
  have e3 : (ms : Int) / 1000 % 60 = ((ms / 1000 % 60 : Nat) : Int) := by
    omega
  have e4 : (ms : Int) % 1000 = ((ms % 1000 : Nat) : Int) := by omega
  simp only [ms_to_srt_timestamp, e1, e2, e3, e4, intFmt_natCast]

/-- C5 (code evidence): on `[(0,0,"a"), (1000,2000,"hi")]`, `write_srt` drops
the degenerate first cue but numbers the surviving cue `2` (the numbering
counts dropped cues) and writes a blank line between the timestamp line and
the text; the block claimed by the spec (number `1`, text directly after the
timestamps) is not what is written. -/
theorem write_srt_failing_input :
    write_srt [(0, 0, ['a']), (1000, 2000, ['h', 'i'])]
        = ("2\n00:00:01,000 --> 00:00:02,000\n\nhi\n\n").toList
      ∧ write_srt [(0, 0, ['a']), (1000, 2000, ['h', 'i'])]
        ≠ ("1\n00:00:01,000 --> 00:00:02,000\nhi\n\n").toList := by
  constructor
  · rfl
  · decide

/-! ## C9 / C1: per-paragraph word-cue construction -/

/-- C9: a paragraph with a start time, no `<s>` children and non-empty
stripped text contributes exactly one cue `(start, start + duration, text)`
to `parse_srv3_to_word_cues` when the duration attribute is present, and
nothing when it is absent. -/
theorem wordCues_no_children (p : Paragraph) (ps : Int) (ht : p.t = some ps)
    (hs : p.segs = []) (htext : pyStrip (orEmpty p.text) ≠ []) :
    wordCuesOfParagraph p =
      match p.d with
      | some para_dur => [(ps, ps + para_dur, pyStrip (orEmpty p.text))]
      | none => [] := by
  cases hd : p.d <;> simp [wordCuesOfParagraph, ht, hs, htext, hd]

/-- Witness for C9: the spec scenario `t=1000 d=800`, no children, text
`[music-marker]`. -/
theorem wordCues_no_children_witness :
    wordCuesOfParagraph
        ⟨some 1000, some 800, some ("[music-marker]").toList, []⟩
      = [(1000, 1800, ("[music-marker]").toList)] := by
  have h := wordCues_no_children
    ⟨some 1000, some 800, some ("[music-marker]").toList, []⟩
    1000 rfl rfl (by decide)
  rw [h]
  decide

/-- The default record an absent `<s>` element decodes to; used only to make
the indexed spec functions below total. -/
def defaultSeg : SSeg := ⟨none, none⟩

/-- Offset of segment `i` of a paragraph (missing `t` attribute means 0). -/
def segOff (segs : List SSeg) (i : Nat) : Int :=
  ((segs.getD i defaultSeg).t).getD 0

/-- Stripped text of segment `i` of a paragraph. -/
def segTxt (segs : List SSeg) (i : Nat) : List Char :=
  pyStrip (orEmpty ((segs.getD i defaultSeg).text))

/-- Word start claimed by the spec: paragraph start plus own offset. -/
def specWordStart (ps : Int) (segs : List SSeg) (i : Nat) : Int :=
  ps + segOff segs i

/-- Word end exactly as the claim states it: next segment's absolute start;
for the final segment, paragraph start + duration when known, else own
start + 250. -/
def claimWordEnd (ps : Int) (pd : Option Int) (segs : List SSeg) (i : Nat) : Int :=
  if i + 1 < segs.length then ps + segOff segs (i + 1)
  else
    match pd with
    | some para_dur => ps + para_dur
    | none => specWordStart ps segs i + 250

/-- Word end after the amendment the code forces: the `[เพลง]` marker is
widened to at least a 500 ms span. -/
def specWordEnd (ps : Int) (pd : Option Int) (segs : List SSeg) (i : Nat) : Int :=
  widen (segTxt segs i) (specWordStart ps segs i) (claimWordEnd ps pd segs i)

/-- Claim C1 as frozen: every segment's cue end is `claimWordEnd`, with no
marker exception. -/
def c1Stated : Prop :=
  ∀ (p : Paragraph) (ps : Int), p.t = some ps → p.segs ≠ [] →
    (∀ s ∈ p.segs, pyStrip (orEmpty s.text) ≠ []) →
    wordCuesOfParagraph p =
      (List.range p.segs.length).map fun i =>
        (specWordStart ps p.segs i, claimWordEnd ps p.d p.segs i, segTxt p.segs i)

/-- C1 counterexample: a paragraph whose first segment is the `[เพลง]`
marker followed 100 ms later by a word gets end `max(100, 0+500) = 500`,
not the claimed `100`. -/
theorem c1_counterexample : ¬ c1Stated := by
  intro h
  have hx := h ⟨some 0, none, none,
      [⟨some 0, some plaengMarker⟩, ⟨some 100, some ['x']⟩]⟩
    0 rfl (by decide) (by decide)
  exact absurd hx (by decide)

lemma segPairs_of_all_nonempty (segs : List SSeg)
    (h : ∀ s ∈ segs, pyStrip (orEmpty s.text) ≠ []) :
    segPairs segs = segs.map fun s => (s.t.getD 0, pyStrip (orEmpty s.text)) := by
  induction segs with
  | nil => rfl
  | cons a l ih =>
    have ha : pyStrip (orEmpty a.text) ≠ [] := h a (by simp)
    simp only [segPairs, List.filterMap_cons, List.map_cons] at *
    rw [if_neg ha]
    have := ih fun s hs => h s (by simp [hs])
    simp only [segPairs] at this
    rw [this]

lemma getD_pairMap (segs : List SSeg) (i : Nat) :
    ((segs.map fun s => (s.t.getD 0, pyStrip (orEmpty s.text))).getD i
        (0, ([] : List Char)))
      = (segOff segs i, segTxt segs i) := by
  rcases hlt : segs[i]? with - | s
  · have hnone : (segs.map fun s => (s.t.getD 0, pyStrip (orEmpty s.text)))[i]?
        = none := by
      simp [List.getElem?_map, hlt]
    simp [List.getD_eq_getElem?_getD, hnone, hlt, segOff, segTxt, defaultSeg,
      orEmpty, pyStrip]
  · have hsome : (segs.map fun s => (s.t.getD 0, pyStrip (orEmpty s.text)))[i]?
        = some (s.t.getD 0, pyStrip (orEmpty s.text)) := by
      simp [List.getElem?_map, hlt]
    simp [List.getD_eq_getElem?_getD, hsome, hlt, segOff, segTxt]

lemma buildCues_eq_range (para_start : Int) (para_dur : Option Int) :
    ∀ L : List (Int × List Char),
      buildCues para_start para_dur L =
        (List.range L.length).map fun i =>
          (para_start + (L.getD i (0, [])).1,
            widen (L.getD i (0, [])).2 (para_start + (L.getD i (0, [])).1)
              (if i + 1 < L.length then para_start + (L.getD (i + 1) (0, [])).1
                else
                  match para_dur with
                  | some dd => para_start + dd
                  | none => para_start + (L.getD i (0, [])).1 + 250),
            (L.getD i (0, [])).2)
  | [] => rfl
  | [(off, txt)] => by
    cases para_dur <;>
      simp [buildCues, List.range_succ, widen]
  | (off1, txt1) :: (off2, txt2) :: rest => by
    rw [buildCues, buildCues_eq_range para_start para_dur ((off2, txt2) :: rest)]
    simp only [List.length_cons]
    conv_rhs => rw [List.range_succ_eq_map, List.map_cons, List.map_map]
    congr 1
    · simp only [List.getD_cons_zero, List.getD_cons_succ]
      rw [if_pos (show 0 + 1 < rest.length + 1 + 1 by omega)]
    · apply List.map_congr_left
      intro i hi
      simp only [Function.comp_apply, List.getD_cons_succ,
        Nat.add_lt_add_iff_right, Nat.succ_lt_succ_iff]

/-- C1 (amended): under the claim's hypotheses, every segment's cue is
`(specWordStart, specWordEnd, segTxt)`, where `specWordEnd` is the claimed
end amended by the `[เพลง]` minimum-span widening. -/
theorem c1_amended (p : Paragraph) (ps : Int) (ht : p.t = some ps)
    (hne : p.segs ≠ [])
    (hall : ∀ s ∈ p.segs, pyStrip (orEmpty s.text) ≠ []) :
    wordCuesOfParagraph p =
      (List.range p.segs.length).map fun i =>
        (specWordStart ps p.segs i, specWordEnd ps p.d p.segs i,
          segTxt p.segs i) := by
  have hmapne : p.segs.map (fun s => (s.t.getD 0, pyStrip (orEmpty s.text))) ≠ [] := by
    simpa using hne
  rw [wordCuesOfParagraph, ht]
  simp only [if_neg hne]
  rw [segPairs_of_all_nonempty p.segs hall]
  rw [if_neg hmapne]
  rw [buildCues_eq_range]
  rw [List.length_map]
  apply List.map_congr_left
  intro i hi
  simp only [getD_pairMap, List.length_map]
  rfl

/-- Witness for C1: the spec scenario `t=1000 d=2000`, offsets `0, 500, 1200`
yields word ends `1500, 2200, 3000`. -/
theorem c1_amended_witness :
    wordCuesOfParagraph
        ⟨some 1000, some 2000, none,
          [⟨some 0, some ['a']⟩, ⟨some 500, some ['b']⟩, ⟨some 1200, some ['c']⟩]⟩
      = [(1000, 1500, ['a']), (1500, 2200, ['b']), (2200, 3000, ['c'])] := by
  have h := c1_amended
    ⟨some 1000, some 2000, none,
      [⟨some 0, some ['a']⟩, ⟨some 500, some ['b']⟩, ⟨some 1200, some ['c']⟩]⟩
    1000 rfl (by decide) (by decide)
  rw [h]
  decide

/-! ## C2: emitted entries are sorted by start time -/

/-- The `pairs.sort(key=lambda t: t[0])` comparison used by `write_pairs`. -/
def pairLe (a b : Rat × List Char) : Bool := decide (a.1 ≤ b.1)

/-- `write_pairs` from fetch_lyrics.py, modelled as the ordered sequence of
`(timestampSeconds, text)` entries written to the file (each entry is then
rendered as one `"%.3f\ttext"` line, which preserves the sequence). -/
def write_pairs (pairs : List (Rat × List Char)) : List (Rat × List Char) :=
  pairs.mergeSort pairLe

lemma pairLe_trans (a b c : Rat × List Char) :
    pairLe a b → pairLe b c → pairLe a c := by
  simp only [pairLe, decide_eq_true_eq]
  exact le_trans

lemma pairLe_total (a b : Rat × List Char) : pairLe a b || pairLe b a := by
  simp only [pairLe, Bool.or_eq_true, decide_eq_true_eq]
  exact le_total a.1 b.1

lemma cueLe_trans (a b c : Cue) : cueLe a b → cueLe b c → cueLe a c := by
  simp only [cueLe, Bool.or_eq_true, Bool.and_eq_true, decide_eq_true_eq]
  omega

lemma cueLe_total (a b : Cue) : cueLe a b || cueLe b a := by
  simp only [cueLe, Bool.or_eq_true, Bool.and_eq_true, decide_eq_true_eq]
  omega

/-- C2: whatever lists they are given — hence regardless of source order —
both `write_pairs` and `parse_srv3_to_word_cues` emit their entries in
non-decreasing start-time order. -/
theorem emitted_entries_sorted (pairs : List (Rat × List Char))
    (paragraphs : List Paragraph) :
    ((write_pairs pairs).Pairwise fun a b => a.1 ≤ b.1)
      ∧ ((parse_srv3_to_word_cues paragraphs).Pairwise fun a b => a.1 ≤ b.1) := by
  constructor
  · exact (List.sorted_mergeSort pairLe_trans pairLe_total pairs).imp
      (by simp only [pairLe, decide_eq_true_eq]; exact fun h => h)
  · exact (List.sorted_mergeSort cueLe_trans cueLe_total
        ((paragraphs.map wordCuesOfParagraph).flatten)).imp
      (by simp only [cueLe, Bool.or_eq_true, Bool.and_eq_true,
            decide_eq_true_eq]
          omega)

/-! ## fetch_lyrics.py: track selection (C3) -/

/-- A caption track descriptor, with the dictionary fields `pick_track`
reads (each may be missing from the JSON). -/
structure CaptionTrack where
  languageCode : Option (List Char)
  vssId : Option (List Char)
  kind : Option (List Char)
  baseUrl : Option (List Char)
deriving DecidableEq

/-- The `score` closure inside `pick_track`: `(exact, prefix-match, asr)`,
with `code = t.get("languageCode") or t.get("vssId") or ""`. -/
def trackScore (lang : List Char) (t : CaptionTrack) : Nat × Nat × Nat :=
  let code := pyOr t.languageCode (pyOr t.vssId [])
  let exact := if code = lang then 1 else 0
  let pfx := if lang ≠ [] ∧ List.isPrefixOf lang code then 1 else 0
  let asr := if t.kind = some ("asr").toList
      ∨ List.isPrefixOf ("a.").toList (pyOr t.vssId []) then 1 else 0
  (exact, pfx, asr)

/-- Python's lexicographic `<=` on 3-tuples of ints. -/
def lexLe (a b : Nat × Nat × Nat) : Bool :=
  decide (a.1 < b.1) || (decide (a.1 = b.1) &&
    (decide (a.2.1 < b.2.1) ||
      (decide (a.2.1 = b.2.1) && decide (a.2.2 ≤ b.2.2))))

/-- The comparison realising `sorted(tracks, key=score, reverse=True)`:
a stable descending sort by score. -/
def trackLe (lang : List Char) (t u : CaptionTrack) : Bool :=
  lexLe (trackScore lang u) (trackScore lang t)

/-- `pick_track` from fetch_lyrics.py. -/
def pick_track (tracks : List CaptionTrack) (lang : List Char) :
    Option CaptionTrack :=
  if tracks = [] then none
  else (tracks.mergeSort (trackLe lang)).head?

lemma lexLe_refl (a : Nat × Nat × Nat) : lexLe a a = true := by
  simp [lexLe]

lemma lexLe_trans {a b c : Nat × Nat × Nat} :
    lexLe a b = true → lexLe b c = true → lexLe a c = true := by
  simp only [lexLe, Bool.or_eq_true, Bool.and_eq_true, decide_eq_true_eq]
  omega

lemma lexLe_total (a b : Nat × Nat × Nat) :
    lexLe a b || lexLe b a := by
  simp only [lexLe, Bool.or_eq_true, Bool.and_eq_true, decide_eq_true_eq]
  omega

lemma lexLe_antisymm {a b : Nat × Nat × Nat} :
    lexLe a b = true → lexLe b a = true → a = b := by
  obtain ⟨a1, a2, a3⟩ := a
  obtain ⟨b1, b2, b3⟩ := b
  simp only [lexLe, Bool.or_eq_true, Bool.and_eq_true, decide_eq_true_eq,
    Prod.mk.injEq]
  omega

lemma trackLe_trans (lang : List Char) (a b c : CaptionTrack) :
    trackLe lang a b → trackLe lang b c → trackLe lang a c :=
  fun h1 h2 => lexLe_trans h2 h1

lemma trackLe_total (lang : List Char) (a b : CaptionTrack) :
    trackLe lang a b || trackLe lang b a := by
  have := lexLe_total (trackScore lang a) (trackScore lang b)
  rw [trackLe, trackLe, Bool.or_comm]
  exact this

lemma enumLE_fst {le : CaptionTrack → CaptionTrack → Bool}
    {i j : Nat} {a b : CaptionTrack}
    (h : List.enumLE le (i, a) (j, b) = true) : le a b = true := by
  by_cases hab : le a b = true
  · exact hab
  · rw [List.enumLE] at h
    simp only [Bool.not_eq_true] at hab
    simp [hab] at h

lemma enumLE_idx {le : CaptionTrack → CaptionTrack → Bool}
    {i j : Nat} {a b : CaptionTrack}
    (h : List.enumLE le (i, a) (j, b) = true) (hba : le b a = true) : i ≤ j := by
  rw [List.enumLE] at h
  rw [enumLE_fst h, hba] at h
  simpa using h

/-- C3: `pick_track` returns `none` on an empty list, and otherwise the
element at the first position whose score is lexicographically maximal:
every position scores `lexLe`-below it, and every strictly earlier position
scores strictly differently (hence strictly lower). -/
theorem pick_track_first_best (tracks : List CaptionTrack) (lang : List Char) :
    (tracks = [] → pick_track tracks lang = none)
    ∧ (tracks ≠ [] →
      ∃ (i : Nat) (hi : i < tracks.length),
        pick_track tracks lang = some (tracks.get ⟨i, hi⟩)
        ∧ (∀ (j : Nat) (hj : j < tracks.length),
            lexLe (trackScore lang (tracks.get ⟨j, hj⟩))
              (trackScore lang (tracks.get ⟨i, hi⟩)) = true)
        ∧ (∀ (j : Nat) (hj : j < tracks.length), j < i →
            trackScore lang (tracks.get ⟨j, hj⟩)
              ≠ trackScore lang (tracks.get ⟨i, hi⟩))) := by
  constructor
  · intro h; simp [pick_track, h]
  · intro hne
    have htrans := List.enumLE_trans (trackLe_trans lang)
    have htotal := List.enumLE_total (trackLe_total lang)
    have hms : ((tracks.enum).mergeSort (List.enumLE (trackLe lang))).map (·.2)
        = tracks.mergeSort (trackLe lang) := List.mergeSort_enum
    have hnil : (tracks.enum).mergeSort (List.enumLE (trackLe lang)) ≠ [] := by
      intro h0
      apply hne
      have hlen := congrArg List.length h0
      simp only [List.length_mergeSort, List.enum_length, List.length_nil] at hlen
      exact List.length_eq_zero.mp hlen
    obtain ⟨⟨i, t⟩, tail, htail⟩ := List.exists_cons_of_ne_nil hnil
    have hmem : (i, t) ∈ tracks.enum := by
      have hm : (i, t) ∈ (tracks.enum).mergeSort (List.enumLE (trackLe lang)) := by
        rw [htail]; exact List.mem_cons_self _ _
      exact List.mem_mergeSort.mp hm
    obtain ⟨k, hk, hkE⟩ := List.mem_iff_getElem.mp hmem
    have hkt : k < tracks.length := by
      simpa [List.enum_length] using hk
    rw [List.getElem_enum] at hkE
    have hik : i = k := ((Prod.mk.injEq _ _ _ _).mp hkE).1.symm
    have hgt : tracks.get ⟨i, by omega⟩ = t := by
      have := (Prod.mk.injEq _ _ _ _).mp hkE |>.2
      subst hik
      simpa [List.get_eq_getElem] using this
    have hsorted := List.sorted_mergeSort htrans htotal (tracks.enum)
    rw [htail] at hsorted
    have hhead := (List.pairwise_cons.mp hsorted).1
    have hi : i < tracks.length := by omega
    have hjE : ∀ (j : Nat) (hj : j < tracks.length),
        (j, tracks.get ⟨j, hj⟩) ∈ tracks.enum := by
      intro j hj
      apply List.mem_iff_getElem.mpr
      refine ⟨j, by simpa [List.enum_length] using hj, ?_⟩
      rw [List.getElem_enum]
      simp [List.get_eq_getElem]
    have hjMs : ∀ (j : Nat) (hj : j < tracks.length),
        (j, tracks.get ⟨j, hj⟩) ∈ ((i, t) :: tail) := by
      intro j hj
      rw [← htail]
      exact List.mem_mergeSort.mpr (hjE j hj)
    refine ⟨i, hi, ?_, ?_, ?_⟩
    · rw [pick_track, if_neg hne, ← hms, htail, hgt]
      rfl
    · intro j hj
      rw [hgt]
      rcases List.mem_cons.mp (hjMs j hj) with heq | htl
      · have : tracks.get ⟨j, hj⟩ = t := ((Prod.mk.injEq _ _ _ _).mp heq).2
        rw [this]
        exact lexLe_refl _
      · exact enumLE_fst (hhead _ htl)
    · intro j hj hji heq
      rw [hgt] at heq
      have hne2 : (j, tracks.get ⟨j, hj⟩) ≠ (i, t) := by
        intro hx
        have : j = i := ((Prod.mk.injEq _ _ _ _).mp hx).1
        omega
      have htl : (j, tracks.get ⟨j, hj⟩) ∈ tail := by
        rcases List.mem_cons.mp (hjMs j hj) with heq2 | htl
        · exact absurd heq2 hne2
        · exact htl
      have hrel := hhead _ htl
      have hle1 : trackLe lang t (tracks.get ⟨j, hj⟩) = true := enumLE_fst hrel
      have hle2 : trackLe lang (tracks.get ⟨j, hj⟩) t = true := by
        rw [trackLe, heq]
        exact lexLe_refl _
      have := enumLE_idx hrel hle2
      omega

/-- Scenario 4 of the spec: an `en` track and a `th` asr track. -/
def tracksEx : List CaptionTrack :=
  [⟨some ("en").toList, none, none, none⟩,
    ⟨some ("th").toList, none, some ("asr").toList, none⟩]

/-- Witness for C3 at scenario 4 with target language `th`. -/
theorem pick_track_first_best_witness :
    ∃ (i : Nat) (hi : i < tracksEx.length),
      pick_track tracksEx (("th").toList) = some (tracksEx.get ⟨i, hi⟩)
      ∧ (∀ (j : Nat) (hj : j < tracksEx.length),
          lexLe (trackScore (("th").toList) (tracksEx.get ⟨j, hj⟩))
            (trackScore (("th").toList) (tracksEx.get ⟨i, hi⟩)) = true)
      ∧ (∀ (j : Nat) (hj : j < tracksEx.length), j < i →
          trackScore (("th").toList) (tracksEx.get ⟨j, hj⟩)
            ≠ trackScore (("th").toList) (tracksEx.get ⟨i, hi⟩)) :=
  (pick_track_first_best tracksEx (("th").toList)).2 (by decide)

/-! ## fetch_lyrics.py: download_caption (C7, C4) -/

/-- An HTTP response as `download_caption` sees it: status code and body. -/
structure HttpResponse where
  status : Nat
  content : List Char
deriving DecidableEq

/-- Python `bytes.lstrip()`. -/
def pyLstrip (s : List Char) : List Char := s.dropWhile Char.isWhitespace

/-- The anti-hijacking line: the four characters of `)]` brace `quote`
followed by a newline. -/
def antiHijackLine : List Char :=
  [')', ']', Char.ofNat 125, Char.ofNat 39, '\n']

/-- Python's `pat in hay` substring test on strings/bytes. -/
def hasSub (pat : List Char) : List Char → Bool
  | [] => pat.isPrefixOf []
  | c :: rest => pat.isPrefixOf (c :: rest) || hasSub pat rest

/-- URL construction per attempt: append `fmt=` (choosing `?` or `&`) unless
already present, plus the `xorb` parameters for json3. -/
def buildUrl (base_url : List Char) (fmt : List Char) : List Char :=
  let url := if hasSub (("fmt=").toList) base_url then base_url
    else
      let sep := if '?' ∈ base_url then ("&").toList else ("?").toList
      base_url ++ sep ++ ("fmt=").toList ++ fmt
  if fmt = ("json3").toList ∧ ¬ hasSub (("xorb=").toList) url then
    url ++ ("&xorb=2&xobt=3&xovt=3").toList
  else url

/-- The body validation of one `download_caption` attempt: lstrip, strip the
anti-hijacking line for validation only, then look for the format marker. -/
def acceptBody (fmt : List Char) (content : List Char) : Bool :=
  let body := pyLstrip content
  if fmt = ("json3").toList then
    let body := if antiHijackLine.isPrefixOf body
      then (body.dropWhile fun c => !(c == '\n')).drop 1
      else body
    hasSub ('"' :: ("events").toList ++ ['"']) body
      || hasSub (("events").toList) body
  else
    hasSub (("<p ").toList) body

/-- One iteration of the format loop of `download_caption`; `none` models
`continue`. On acceptance the code returns `r.content`, not the stripped
validation body. -/
def attemptFmt (resp : List Char → HttpResponse) (base_url fmt : List Char) :
    Option (List Char × List Char) :=
  let r := resp (buildUrl base_url fmt)
  if r.status ≠ 200 ∨ r.content = [] then none
  else if acceptBody fmt r.content then some (fmt, r.content) else none

/-- `download_caption` from fetch_lyrics.py, with the blocking network fetch
supplied as a function from URL to response. -/
def download_caption (resp : List Char → HttpResponse) (base_url : List Char) :
    List (List Char) → Except (List Char) (List Char × List Char)
  | [] => Except.error (("No usable caption data").toList)
  | fmt :: rest =>
    match attemptFmt resp base_url fmt with
    | some res => Except.ok res
    | none => download_caption resp base_url rest

/-- C7: `download_caption` returns `ok` exactly on the first format whose
response is accepted, and the fatal "No usable caption data" error when no
format is accepted — one pass, no retry, no partial result. -/
theorem download_caption_first_accepted (resp : List Char → HttpResponse)
    (base_url : List Char) (prefer : List (List Char)) :
    download_caption resp base_url prefer =
      match prefer.findSome? (attemptFmt resp base_url) with
      | some res => Except.ok res
      | none => Except.error (("No usable caption data").toList) := by
  induction prefer with
  | nil => rfl
  | cons fmt rest ih =>
    rw [download_caption, List.findSome?_cons]
    cases attemptFmt resp base_url fmt <;> simp [ih]

/-- A json3 body preceded by the anti-hijacking line. -/
def prefixedJsonBody : List Char :=
  antiHijackLine ++ ("\x7b\"events\": []\x7d").toList

/-- A server that always answers 200 with `prefixedJsonBody`. -/
def respC4 : List Char → HttpResponse := fun _ => ⟨200, prefixedJsonBody⟩

/-- C4 (code evidence): on a prefixed json3 payload, `download_caption`
accepts the json3 format (the prefix is stripped for validation) but returns
the ORIGINAL bytes, which still begin with the `)]` brace `quote` line —
so the JSON decode inside `parse_json3_sentences` / `parse_json3_words` is
applied to a document that is not JSON and fails. -/
theorem download_caption_keeps_hijack_line :
    attemptFmt respC4 (("https://example.invalid/t?v=1").toList)
        (("json3").toList)
      = some (("json3").toList, prefixedJsonBody)
    ∧ antiHijackLine.isPrefixOf prefixedJsonBody = true
    ∧ download_caption respC4 (("https://example.invalid/t?v=1").toList)
        [("json3").toList, ("srv3").toList]
      = Except.ok (("json3").toList, prefixedJsonBody) := by
  have h1 : attemptFmt respC4 (("https://example.invalid/t?v=1").toList)
      (("json3").toList) = some (("json3").toList, prefixedJsonBody) := by
    decide
  refine ⟨h1, by decide, ?_⟩
  rw [download_caption, h1]

/-! ## fetch_lyrics.py: json3 parsers (C8) -/

/-- A `segs` entry of a json3 event. -/
structure J3Seg where
  utf8 : Option (List Char)
  tOffsetMs : Option Int
deriving DecidableEq

/-- A json3 `events` entry. -/
structure J3Event where
  tStartMs : Option Int
  segs : Option (List J3Seg)
deriving DecidableEq

/-- `parse_json3_sentences` from fetch_lyrics.py, applied to the decoded
`events` array: join all segment texts, replace newlines by spaces, strip;
skip events with no start, no segments, or empty resulting text. -/
def parse_json3_sentences (events : List J3Event) : List (Rat × List Char) :=
  events.filterMap fun ev =>
    match ev.tStartMs, ev.segs.getD [] with
    | none, _ => none
    | some _, [] => none
    | some t0, segs =>
      let text := pyStrip (((segs.map fun s => orEmpty s.utf8).flatten).map
        fun c => if c = '\n' then ' ' else c)
      if text = [] then none
      else some ((t0 : Rat) / 1000, text)

/-- `parse_json3_words` from fetch_lyrics.py: one token per segment at
`(tStartMs + tOffsetMs) / 1000`, skipping empty-trimmed and fully
bracket-delimited tokens. -/
def parse_json3_words (events : List J3Event) : List (Rat × List Char) :=
  events.flatMap fun ev =>
    match ev.tStartMs, ev.segs.getD [] with
    | none, _ => []
    | some _, [] => []
    | some t0, segs =>
      segs.filterMap fun s =>
        let token := pyStrip (orEmpty s.utf8)
        if token = []
            ∨ (token.head? = some '[' ∧ token.getLast? = some ']') then none
        else some (((t0 + s.tOffsetMs.getD 0 : Int) : Rat) / 1000, token)

/-- The claim's word-token rule, written from the spec sentence: timestamp =
event start + segment offset (default 0); skip a segment whose trimmed text
is empty or fully bracket-delimited. -/
def specJson3Word (t0 : Int) (s : J3Seg) : Option (Rat × List Char) :=
  let token := pyStrip (orEmpty s.utf8)
  if token = [] ∨ (token.head? = some '[' ∧ token.getLast? = some ']') then none
  else some (((t0 + s.tOffsetMs.getD 0 : Int) : Rat) / 1000, token)

/-- The claim's sentence text: every segment contributes — no bracket
filtering — with newlines replaced by spaces and the ends trimmed. -/
def specJson3SentenceText (segs : List J3Seg) : List Char :=
  pyStrip (((segs.map fun s => orEmpty s.utf8).flatten).map
    fun c => if c = '\n' then ' ' else c)

/-- C8: for an event with a start time and a non-empty segment list, word
mode emits exactly the segments the spec rule keeps, at start + offset;
sentence mode applies no bracket filter: its text is built from every
segment. -/
theorem json3_word_and_sentence_rule (ev : J3Event) (t0 : Int)
    (ht : ev.tStartMs = some t0) (hs : ev.segs.getD [] ≠ []) :
    parse_json3_words [ev] = (ev.segs.getD []).filterMap (specJson3Word t0)
    ∧ parse_json3_sentences [ev] =
      (if specJson3SentenceText (ev.segs.getD []) = [] then []
       else [((t0 : Rat) / 1000, specJson3SentenceText (ev.segs.getD []))]) := by
  rcases hseg : ev.segs.getD [] with - | ⟨a, l⟩
  · exact absurd hseg hs
  · constructor
    · simp only [parse_json3_words, List.flatMap_cons, List.flatMap_nil,
        List.append_nil, ht, hseg]
      rfl
    · simp only [parse_json3_sentences, List.filterMap_cons, List.filterMap_nil,
        ht, hseg, specJson3SentenceText]
      split <;> simp_all

/-- Witness for C8: event at 1000 ms with a bracketed marker segment and a
word segment at offset 500 — the word list keeps only `hi` at 1.5 s, the
sentence keeps the marker. -/
theorem json3_word_and_sentence_rule_witness :
    parse_json3_words [⟨some 1000,
        some [⟨some (("[Music]").toList), none⟩,
          ⟨some ((" hi ").toList), some 500⟩]⟩]
      = [(((1500 : Int) : Rat) / 1000, ("hi").toList)]
    ∧ parse_json3_sentences [⟨some 1000,
        some [⟨some (("[Music]").toList), none⟩,
          ⟨some ((" hi ").toList), some 500⟩]⟩]
      = [(((1000 : Int) : Rat) / 1000, ("[Music] hi").toList)] := by
  have h := json3_word_and_sentence_rule
    ⟨some 1000, some [⟨some (("[Music]").toList), none⟩,
      ⟨some ((" hi ").toList), some 500⟩]⟩ 1000 rfl (by decide)
  constructor
  · rw [h.1]
    simp only [Option.getD_some, List.filterMap_cons, List.filterMap_nil,
      specJson3Word]
    rw [if_pos (by decide), if_neg (by decide)]
    norm_num
    decide
  · rw [h.2]
    rw [if_neg (by decide)]
    norm_num
    decide

/-! ## srv3 sentence parsers (C6) -/

/-- `parse_srv3_sentences` from fetch_lyrics.py: the text is the join of the
stripped `<s>` texts, then stripped — with NO fallback to the paragraph's own
text. Entries are emitted in document order (sorting happens later in
`write_pairs`). -/
def fl_parse_srv3_sentences (paragraphs : List Paragraph) :
    List (Rat × List Char) :=
  paragraphs.filterMap fun p =>
    match p.t with
    | none => none
    | some start_ms =>
      let text := pyStrip ((p.segs.map fun s => pyStrip (orEmpty s.text)).flatten)
      if text = [] then none
      else some ((start_ms : Rat) / 1000, text)

/-- The `sentences.sort(key=lambda x: x[0])` comparison. -/
def fsLe (a b : Int × List Char) : Bool := decide (a.1 ≤ b.1)

/-- The body of the paragraph loop of fetch_srv3_sentences.py's
`parse_srv3_sentences`: the sentence contributed by one `<p>` element. -/
def fsSentenceOfParagraph (p : Paragraph) : Option (Int × List Char) :=
  match p.t with
  | none => none
  | some start_ms =>
    let text :=
      match p.segs with
      | [] => pyStrip (orEmpty p.text)
      | _ :: _ => pyStrip ((p.segs.filterMap fun s =>
          let txt := pyStrip (orEmpty s.text)
          if txt = [] then none else some txt).flatten)
    if text = [] then none
    else some (start_ms, text)

/-- `parse_srv3_sentences` from fetch_srv3_sentences.py: join the non-empty
stripped `<s>` texts and strip, falling back to the paragraph's own stripped
text when there are no `<s>` children; the result is sorted by start time. -/
def fs_parse_srv3_sentences (paragraphs : List Paragraph) :
    List (Int × List Char) :=
  (paragraphs.filterMap fsSentenceOfParagraph).mergeSort fsLe

/-- The claim's sentence text for a paragraph with children: the
separator-free concatenation of the stripped segment texts, in order. -/
def specConcatSegText (segs : List SSeg) : List Char :=
  (segs.map fun s => pyStrip (orEmpty s.text)).flatten

lemma dropWhile_dropWhile (p : Char → Bool) (l : List Char) :
    (l.dropWhile p).dropWhile p = l.dropWhile p := by
  induction l with
  | nil => rfl
  | cons a t ih =>
    by_cases h : p a = true
    · simp [List.dropWhile_cons, h, ih]
    · simp [List.dropWhile_cons, h]

lemma head_false_of_dropWhile_eq {p : Char → Bool} {a : Char} {t : List Char}
    (h : (a :: t).dropWhile p = a :: t) : p a = false := by
  cases hpa : p a
  · rfl
  · exfalso
    rw [List.dropWhile_cons, if_pos hpa] at h
    have hle := (List.dropWhile_sublist (l := t) p).length_le
    have := congrArg List.length h
    simp only [List.length_cons] at this
    omega

lemma prefix_dropWhile_eq {p : Char → Bool} {u v : List Char} (hv : v <+: u)
    (hu : u.dropWhile p = u) : v.dropWhile p = v := by
  cases v with
  | nil => rfl
  | cons a t =>
    obtain ⟨rest, hrest⟩ := hv
    rw [← hrest, List.cons_append] at hu
    have hpa := head_false_of_dropWhile_eq hu
    rw [List.dropWhile_cons, if_neg (by simp [hpa])]

lemma append_dropWhile_eq {p : Char → Bool} {x y : List Char}
    (hx : x.dropWhile p = x) (hne : x ≠ []) :
    (x ++ y).dropWhile p = x ++ y := by
  cases x with
  | nil => exact absurd rfl hne
  | cons a t =>
    have hpa := head_false_of_dropWhile_eq hx
    rw [List.cons_append, List.dropWhile_cons, if_neg (by simp [hpa])]

lemma flatten_dropWhile_eq {p : Char → Bool} (pieces : List (List Char))
    (h : ∀ x ∈ pieces, x.dropWhile p = x) :
    pieces.flatten.dropWhile p = pieces.flatten := by
  induction pieces with
  | nil => rfl
  | cons x rest ih =>
    rw [List.flatten_cons]
    rcases eq_or_ne x [] with hx | hx
    · subst hx
      rw [List.nil_append]
      exact ih fun y hy => h y (by simp [hy])
    · exact append_dropWhile_eq (h x (by simp)) hx

lemma pyStrip_left (t : List Char) :
    (pyStrip t).dropWhile Char.isWhitespace = pyStrip t := by
  have h1 : (t.dropWhile Char.isWhitespace).dropWhile Char.isWhitespace
      = t.dropWhile Char.isWhitespace := dropWhile_dropWhile _ _
  have h2 : pyStrip t <+: t.dropWhile Char.isWhitespace := by
    rw [pyStrip]
    conv_rhs => rw [← List.reverse_reverse (t.dropWhile Char.isWhitespace)]
    exact List.reverse_prefix.mpr (List.dropWhile_suffix _)
  exact prefix_dropWhile_eq h2 h1

lemma pyStrip_rev_left (t : List Char) :
    (pyStrip t).reverse.dropWhile Char.isWhitespace = (pyStrip t).reverse := by
  rw [pyStrip, List.reverse_reverse]
  exact dropWhile_dropWhile _ _

lemma pyStrip_eq_self {t : List Char}
    (h1 : t.dropWhile Char.isWhitespace = t)
    (h2 : t.reverse.dropWhile Char.isWhitespace = t.reverse) :
    pyStrip t = t := by
  rw [pyStrip, h1, h2, List.reverse_reverse]

lemma pyStrip_idem (t : List Char) : pyStrip (pyStrip t) = pyStrip t :=
  pyStrip_eq_self (pyStrip_left t) (pyStrip_rev_left t)

/-- Stripping a separator-free join of already-stripped pieces is a no-op:
the claim's "concatenation of the trimmed texts" equals what the code
computes with its outer `.strip()`. -/
lemma pyStrip_flatten (pieces : List (List Char))
    (h : ∀ x ∈ pieces, pyStrip x = x) :
    pyStrip pieces.flatten = pieces.flatten := by
  have hleft : pieces.flatten.dropWhile Char.isWhitespace = pieces.flatten :=
    flatten_dropWhile_eq pieces fun x hx => by
      rw [← h x hx]
      exact pyStrip_left x
  have hrev : pieces.flatten.reverse.dropWhile Char.isWhitespace
      = pieces.flatten.reverse := by
    rw [List.reverse_flatten]
    apply flatten_dropWhile_eq
    intro x hx
    rw [List.mem_reverse, List.mem_map] at hx
    obtain ⟨y, hy, hyx⟩ := hx
    rw [← hyx, ← h y hy]
    exact pyStrip_rev_left y
  exact pyStrip_eq_self hleft hrev

lemma flatten_filterMap_nonempty (L : List (List Char)) :
    (L.filterMap fun x => if x = [] then none else some x).flatten
      = L.flatten := by
  induction L with
  | nil => rfl
  | cons x rest ih =>
    rw [List.filterMap_cons]
    rcases eq_or_ne x [] with hx | hx
    · subst hx
      simp [ih]
    · simp only [if_neg hx, List.flatten_cons, ih]

lemma pyStrip_specConcat (segs : List SSeg) :
    pyStrip (specConcatSegText segs) = specConcatSegText segs := by
  apply pyStrip_flatten
  intro x hx
  obtain ⟨s, hsm, hsx⟩ := List.mem_map.mp hx
  rw [← hsx]
  exact pyStrip_idem _

/-- Claim C6 as frozen: BOTH sentence-mode srv3 parsers emit the
concatenation of the stripped child texts when children exist, and the
paragraph's own stripped text when there are no children; paragraphs with no
start time or empty resulting text are skipped. -/
def c6Stated : Prop :=
  ∀ (p : Paragraph) (start_ms : Int), p.t = some start_ms →
    (p.segs ≠ [] →
      fl_parse_srv3_sentences [p]
        = (if specConcatSegText p.segs = [] then []
           else [((start_ms : Rat) / 1000, specConcatSegText p.segs)])
      ∧ fs_parse_srv3_sentences [p]
        = (if specConcatSegText p.segs = [] then []
           else [(start_ms, specConcatSegText p.segs)]))
    ∧ (p.segs = [] →
      fl_parse_srv3_sentences [p]
        = (if pyStrip (orEmpty p.text) = [] then []
           else [((start_ms : Rat) / 1000, pyStrip (orEmpty p.text))])
      ∧ fs_parse_srv3_sentences [p]
        = (if pyStrip (orEmpty p.text) = [] then []
           else [(start_ms, pyStrip (orEmpty p.text))]))

/-- C6 counterexample: on a childless paragraph with text `hi`, the
fetch_lyrics.py parser emits nothing (it has no paragraph-text fallback),
while the claim requires one sentence. -/
theorem c6_counterexample : ¬ c6Stated := by
  intro h
  have hx := ((h ⟨some 0, none, some (("hi").toList), []⟩ 0 rfl).2 rfl).1
  rw [if_neg (by decide)] at hx
  exact absurd hx (by decide)

/-- C6 (amended): for every paragraph with a start time, the
fetch_srv3_sentences.py parser behaves as the claim says (concatenation when
children exist, paragraph-text fallback otherwise, empty results skipped),
while the fetch_lyrics.py parser emits only the concatenation of child
segment texts and therefore skips every childless paragraph. -/
theorem srv3_sentence_modes (p : Paragraph) (start_ms : Int)
    (ht : p.t = some start_ms) :
    (p.segs ≠ [] →
      fl_parse_srv3_sentences [p]
        = (if specConcatSegText p.segs = [] then []
           else [((start_ms : Rat) / 1000, specConcatSegText p.segs)])
      ∧ fs_parse_srv3_sentences [p]
        = (if specConcatSegText p.segs = [] then []
           else [(start_ms, specConcatSegText p.segs)]))
    ∧ (p.segs = [] →
      fl_parse_srv3_sentences [p] = []
      ∧ fs_parse_srv3_sentences [p]
        = (if pyStrip (orEmpty p.text) = [] then []
           else [(start_ms, pyStrip (orEmpty p.text))])) := by
  have hfl : pyStrip ((p.segs.map fun s => pyStrip (orEmpty s.text)).flatten)
      = specConcatSegText p.segs := pyStrip_specConcat p.segs
  constructor
  · intro hne
    constructor
    · simp only [fl_parse_srv3_sentences, List.filterMap_cons,
        List.filterMap_nil, ht, hfl]
      by_cases hc : specConcatSegText p.segs = [] <;> simp [hc]
    · rcases hseg : p.segs with - | ⟨a, l⟩
      · exact absurd hseg hne
      have hfm : ((a :: l).filterMap fun s =>
          let txt := pyStrip (orEmpty s.text)
          if txt = [] then none else some txt)
          = ((a :: l).map fun s => pyStrip (orEmpty s.text)).filterMap
              fun x => if x = [] then none else some x := by
        rw [List.filterMap_map]
        rfl
      have htext : pyStrip (((a :: l).filterMap fun s =>
          let txt := pyStrip (orEmpty s.text)
          if txt = [] then none else some txt).flatten)
          = specConcatSegText (a :: l) := by
        rw [hfm, flatten_filterMap_nonempty]
        rw [hseg] at hfl
        exact hfl
      have hval : fsSentenceOfParagraph p
          = (if specConcatSegText (a :: l) = [] then none
             else some (start_ms, specConcatSegText (a :: l))) := by
        simp only [fsSentenceOfParagraph, ht, hseg, htext]
      simp only [fs_parse_srv3_sentences, List.filterMap_cons,
        List.filterMap_nil, hval]
      by_cases hc : specConcatSegText (a :: l) = [] <;>
        simp [hc, List.mergeSort_nil, List.mergeSort_singleton]
  · intro hs
    constructor
    · simp [fl_parse_srv3_sentences, ht, hs, pyStrip]
    · have hval : fsSentenceOfParagraph p
          = (if pyStrip (orEmpty p.text) = [] then none
             else some (start_ms, pyStrip (orEmpty p.text))) := by
        simp only [fsSentenceOfParagraph, ht, hs]
      simp only [fs_parse_srv3_sentences, List.filterMap_cons,
        List.filterMap_nil, hval]
      by_cases hc : pyStrip (orEmpty p.text) = [] <;>
        simp [hc, List.mergeSort_nil, List.mergeSort_singleton]

/-- Witness for C6: a paragraph at 2000 ms with segments ` ab ` and `cd`
(and own text that is ignored) yields the sentence `abcd` in both parsers. -/
theorem srv3_sentence_modes_witness :
    fl_parse_srv3_sentences
        [⟨some 2000, none, some ((" ignored ").toList),
          [⟨none, some ((" ab ").toList)⟩, ⟨some 5, some (("cd").toList)⟩]⟩]
      = [(((2000 : Int) : Rat) / 1000, ("abcd").toList)]
    ∧ fs_parse_srv3_sentences
        [⟨some 2000, none, some ((" ignored ").toList),
          [⟨none, some ((" ab ").toList)⟩, ⟨some 5, some (("cd").toList)⟩]⟩]
      = [(2000, ("abcd").toList)] := by
  have h := (srv3_sentence_modes
    ⟨some 2000, none, some ((" ignored ").toList),
      [⟨none, some ((" ab ").toList)⟩, ⟨some 5, some (("cd").toList)⟩]⟩
    2000 rfl).1 (by decide)
  constructor
  · rw [h.1, if_neg (by decide)]
    exact congrArg (fun t => [(((2000 : Int) : Rat) / 1000, t)]) (by decide)
  · rw [h.2, if_neg (by decide)]
    decide
